import Mathlib

/-!
Verification of the fluorescence-decay fitting notebook and the pandas lecture
notebook. Python/numpy code is shallowly embedded: numpy 1-D arrays become
`List` values, file data values (decimal literals of the data files) become
rationals, real-valued computations (exponentials, square roots) live in `ℝ`,
and 2-D numpy arrays become shape-carrying function matrices (`NArr`).
-/

namespace JupyterCourse

/-- `l.foldl max a`: the maximum of `a :: l`.  Embeds numpy's `arr.max()`
(for a nonempty array split as head and tail). -/
def listMax {α : Type*} [LinearOrder α] (a : α) (l : List α) : α :=
  l.foldl max a

/-- First index of the maximum of a list; embeds numpy's `arr.argmax()`,
which returns the first occurrence of the maximal entry (`0` on the empty
array, which numpy rejects). -/
def argmaxIdx {α : Type*} [LinearOrder α] : List α → ℕ
  | [] => 0
  | [_] => 0
  | a :: b :: l => if listMax b l ≤ a then 0 else argmaxIdx (b :: l) + 1

/-- A loaded dataset, cell at src/unnamed/part_000:581: the rows of the
2-D array `d`, each row a `(time, count)` pair.  File values are decimal
literals, embedded as rationals. -/
abbrev Dataset := List (ℚ × ℚ)

/-- Time of the row of maximal count: `d[d[:,1]==d[:,1].max(), 0]` at
src/unnamed/part_000:582 for a dataset whose maximal count is attained in a
single row (with several maximal rows that numpy expression does not produce
a scalar). The first-occurrence index `argmaxIdx` picks that row. -/
def peakTime (rows : Dataset) : ℚ :=
  (rows.getD (argmaxIdx (rows.map Prod.snd)) (0, 0)).1

/-- Boolean-mask truncation, src/unnamed/part_000:582:
`d = d[ d[:,0] > d[d[:,1]==d[:,1].max(), 0] ]` — keep exactly the rows whose
time is strictly greater than the peak row's time. -/
def maskTrunc (rows : Dataset) : Dataset :=
  rows.filter (fun r => peakTime rows < r.1)

/-- Argmax-slice truncation, src/unnamed/part_000:614-615:
`t = t[F.argmax():]; F = F[F.argmax():]` — keep the rows from the first
index of maximal count onward (row form of the two parallel slices). -/
def argmaxTrunc (rows : Dataset) : Dataset :=
  rows.drop (argmaxIdx (rows.map Prod.snd))

/-- The truncation behaviour the spec describes: every row whose time
precedes the time of the intensity peak is removed, every row from the
peak onward is retained. -/
def retainFromPeak (rows : Dataset) : Dataset :=
  rows.filter (fun r => peakTime rows ≤ r.1)

/-- Modelled from the spec: `np.loadtxt(..., skiprows=k)` is library code not
in src/; per the spec a file is a flat text file whose lines are lists of
numeric fields, and loading drops the first `k` lines. -/
def loadtxtRows (fileLines : List (List ℚ)) (skiprows : ℕ) : List (List ℚ) :=
  fileLines.drop skiprows

/-- The repository's reading of a data file, src/unnamed/part_000:556 (also
581, 612): `t,F = np.loadtxt(..., unpack=True, skiprows=9)` — skip 9 header
lines, unpack field 0 as the times and field 1 as the photon counts. -/
def readTF (fileLines : List (List ℚ)) : List ℚ × List ℚ :=
  ((loadtxtRows fileLines 9).map (fun l => l.getD 0 0),
   (loadtxtRows fileLines 9).map (fun l => l.getD 1 0))

/-- The quencher concentration series, src/unnamed/part_000:554:
`concs = [0.0,0.2,0.5,1.0,1.5]` (mM). -/
def concs : List ℚ := [0, 2/10, 5/10, 1, 15/10]

/-- One pass of the dataframe-construction loop body,
src/unnamed/part_000:612-617: truncate `t` and `F` at `F.argmax()`, shift the
times so the peak is at zero, and form the rows `(t, F, errF)` with
`errF = np.sqrt(F)`.  Data values are the file's rationals; `errF` is real. -/
noncomputable def processOne (t F : List ℚ) : List (ℚ × ℚ × ℝ) :=
  let t1 := t.drop (argmaxIdx F)
  let F1 := F.drop (argmaxIdx F)
  let t2 := t1.map (fun a => a - t1.getD 0 0)
  List.zipWith (fun a f => (a, f, Real.sqrt (f : ℝ))) t2 F1

/-- The combined dataframe, src/unnamed/part_000:610-620: start from an empty
frame and append, for each concentration in `concs` order, the processed
block indexed by that concentration (`d['conc'] = conc; d.set_index('conc')`;
`data = data.append(d)`).  `inputs` are the five loaded `(t, F)` files. -/
noncomputable def buildData (inputs : List (List ℚ × List ℚ)) :
    List (ℚ × ℚ × ℚ × ℝ) :=
  (concs.zip inputs).foldl
    (fun acc ci => acc ++ (processOne ci.2.1 ci.2.2).map (fun r => (ci.1, r))) []

/-- A persistence effect of the pipeline: a pickled or a CSV dump of a
dataframe at a path. -/
inductive Effect : Type where
  | pickle : String → List (ℚ × ℚ × ℚ × ℝ) → Effect
  | csv : String → List (ℚ × ℚ × ℚ × ℝ) → Effect

/-- The persisted outputs of the pipeline cell, src/unnamed/part_000:621-622:
`data.to_pickle('data/fluorescence.p')` then `data.to_csv('data/fluorescence.csv')`,
both executed after the construction loop; no other cell of the repository
writes to disk. -/
noncomputable def pipelineEffects (inputs : List (List ℚ × List ℚ)) :
    List Effect :=
  [Effect.pickle "data/fluorescence.p" (buildData inputs),
   Effect.csv "data/fluorescence.csv" (buildData inputs)]

/-- Single-exponential decay model, src/unnamed/part_000:670-671:
`exp_decay(x, param) = param[0] * np.exp(-x / param[1])`. -/
noncomputable def exp_decay (x : ℝ) (param : ℝ × ℝ) : ℝ :=
  param.1 * Real.exp (-x / param.2)

/-- Single-curve weighted residuals, src/unnamed/part_000:674-675:
`residuals(param, *args) = (args[1] - exp_decay(args[0], param)) / args[2]`
with `args = [x, y, yerr]`, elementwise on the arrays. -/
noncomputable def residualsSingle (param : ℝ × ℝ) (x y yerr : List ℝ) :
    List ℝ :=
  List.zipWith (fun a e => a / e)
    (List.zipWith (fun yi xi => yi - exp_decay xi param) y x) yerr

/-- Quenched intensity-decay model, src/unnamed/part_000:1122-1123:
`decay(x, param) = param[0]*np.exp(-x/param[1] + param[3]*np.expm1(-param[2]*x))`
(`np.expm1 z = exp z - 1`). -/
noncomputable def decay (x : ℝ) (param : ℝ × ℝ × ℝ × ℝ) : ℝ :=
  param.1 * Real.exp (-x / param.2.1 +
    param.2.2.2 * (Real.exp (-param.2.2.1 * x) - 1))

/-- Weighted residuals of one curve of the global fit, the loop body at
src/unnamed/part_000:1127-1129: `(args[1][i] - decay(args[0][i], param)) / args[2][i]`
with `param = p[0], p[1], p[2], m`. -/
noncomputable def curveResiduals (param : ℝ × ℝ × ℝ × ℝ) (x y yerr : List ℝ) :
    List ℝ :=
  List.zipWith (fun a e => a / e)
    (List.zipWith (fun yi xi => yi - decay xi param) y x) yerr

/-- Global-fit residuals, src/unnamed/part_000:1125-1131: starting from an
empty array, for each `(i, m)` in `enumerate(p[3:])` append the weighted
residuals of curve `i` computed with shared `p[0], p[1], p[2]` and the
curve's own `m`. -/
noncomputable def residualsGlobal (p : List ℝ)
    (allx ally allyerr : List (List ℝ)) : List ℝ :=
  ((p.drop 3).enum).foldl
    (fun acc im =>
      acc ++ curveResiduals (p.getD 0 0, p.getD 1 0, p.getD 2 0, im.2)
        (allx.getD im.1 []) (ally.getD im.1 []) (allyerr.getD im.1 []))
    []

/-- Sum of squares of a residual vector: the least-squares objective built
from the residual array handed to `least_squares` (which minimizes half of
it, a monotone rescaling). -/
noncomputable def sumSq (l : List ℝ) : ℝ :=
  (l.map (fun r => r ^ 2)).sum

/-- A numpy 2-D array: shape plus entry function (entries outside the shape
are irrelevant). -/
structure NArr : Type where
  rows : ℕ
  cols : ℕ
  entry : ℕ → ℕ → ℝ

/-- `M.T`, numpy transpose. -/
def transposeA (M : NArr) : NArr :=
  ⟨M.cols, M.rows, fun i j => M.entry j i⟩

/-- Broadcast division `M / v` of a matrix by a row vector along the last
axis, numpy broadcasting: entry `i j` becomes `M[i,j] / v[j]`. -/
noncomputable def divBroadcast (M : NArr) (v : List ℝ) : NArr :=
  ⟨M.rows, M.cols, fun i j => M.entry i j / v.getD j 0⟩

/-- `np.dot` of two 2-D arrays. -/
noncomputable def matDot (M N : NArr) : NArr :=
  ⟨M.rows, N.cols, fun i j => ∑ t ∈ Finset.range M.cols, M.entry i t * N.entry t j⟩

/-- Elementwise scaling `M * c`. -/
noncomputable def matScale (c : ℝ) (M : NArr) : NArr :=
  ⟨M.rows, M.cols, fun i j => M.entry i j * c⟩

/-- Row slice `M[:n]`. -/
def takeRows (n : ℕ) (M : NArr) : NArr :=
  ⟨min n M.rows, M.cols, M.entry⟩

/-- An optimizer result bundle as returned by `scipy.optimize.least_squares`
(src/unnamed/part_000:645): best-fit parameters `x`, residuals at the
solution `fn` (scipy's `res.fun`), half sum of squares `cost`, modified
Jacobian `jac`, and the convergence flag `success`. -/
structure OptResult : Type where
  x : List ℝ
  fn : List ℝ
  cost : ℝ
  jac : NArr
  success : Bool

/-- `error_analysis`, src/unnamed/part_000:820-829, with the library SVD
output of `res.jac` (`svd(res.jac, full_matrices=False)` returns singular
values `s` and the matrix `VT`) and the float-epsilon constant passed as
parameters: `rss = 2*res.cost`; `s_sq = rss / (res.fun.size - res.x.size)`;
`threshold = eps * max(res.jac.shape) * s[0]`; `s = s[s > threshold]`;
`VT = VT[:s.size]`; `pcov = np.dot(VT.T / s**2, VT) * s_sq`; return
`(np.sqrt(np.diag(pcov)), s_sq)`. -/
noncomputable def error_analysis (res : OptResult) (s : List ℝ) (VT : NArr)
    (eps : ℝ) : List ℝ × ℝ :=
  let rss := 2 * res.cost
  let s_sq := rss / ((res.fn.length : ℝ) - (res.x.length : ℝ))
  let threshold := eps * ((max res.jac.rows res.jac.cols : ℕ) : ℝ) * s.getD 0 0
  let s1 := s.filter (fun v => threshold < v)
  let VT1 := takeRows s1.length VT
  let pcov := matScale s_sq
    (matDot (divBroadcast (transposeA VT1) (s1.map (fun v => v ^ 2))) VT1)
  ((List.range (min pcov.rows pcov.cols)).map
    (fun i => Real.sqrt (pcov.entry i i)), s_sq)

/-- The singular values kept by `error_analysis`, as the spec words it:
those exceeding `eps * max(jac.shape) * s[0]`. -/
noncomputable def keptSingulars (res : OptResult) (s : List ℝ) (eps : ℝ) :
    List ℝ :=
  s.filter (fun v => eps * ((max res.jac.rows res.jac.cols : ℕ) : ℝ) * s.getD 0 0 < v)

/-- The spec's formula for the scaled covariance matrix: the Moore-Penrose
inverse of `jacᵀ jac` computed from the singular-value decomposition
`jac = U diag(s) VT` restricted to the kept singular values — entry `(i, j)`
is `s_sq * ∑ k, VT[k,i] * VT[k,j] / s[k]²` over the kept `k` — scaled by the
residual variance `s_sq`. -/
noncomputable def pcovFormula (s1 : List ℝ) (VT : NArr) (s_sq : ℝ)
    (i j : ℕ) : ℝ :=
  s_sq * ∑ k ∈ Finset.range s1.length,
    VT.entry k i * VT.entry k j / (s1.getD k 0) ^ 2

/-- The post-fit reporting of the notebook as a function of the optimizer
result: the printed convergence flag (src/unnamed/part_000:716), the
best-fit parameters (725), and the error analysis (860-861).  No cell
branches on, retries after, or raises from the flag. -/
noncomputable def fitReport (res : OptResult) (s : List ℝ) (VT : NArr)
    (eps : ℝ) : Bool × List ℝ × (List ℝ × ℝ) :=
  (res.success, res.x, error_analysis res s VT eps)

/-- A pandas dataframe of the lecture notebook: row label (country) with its
cells, each a column label (year) with an optional numeric value. -/
abbrev Frame := List (String × List (ℤ × Option ℚ))

/-- Modelled from the spec: `pandas.DataFrame.drop` is library code not in
src/; per the claim (and the recorded outputs of cells 44-47 of
src/lectures/pandas_1.ipynb) it produces the frame with the named rows and
columns removed. -/
def dropFrame (df : Frame) (idx : List String) (cols : List ℤ) : Frame :=
  (df.filter (fun r => r.1 ∉ idx)).map
    (fun r => (r.1, r.2.filter (fun c => c.1 ∉ cols)))

/-- Modelled from the spec: evaluation of a `df.drop(...)` cell against the
notebook state `df`, returning (cell value, state after the cell).  Without
`inplace=True` the call returns the new frame and leaves the state untouched;
with `inplace=True` it returns `None` and replaces the state. -/
def runDrop (df : Frame) (idx : List String) (cols : List ℤ)
    (inplace : Bool) : Option Frame × Frame :=
  if inplace then (none, dropFrame df idx cols)
  else (some (dropFrame df idx cols), df)

/-! ### Helper lemmas -/

/-- `argmax` of a nonempty array is a valid index. -/
theorem argmaxIdx_lt_length {α : Type*} [LinearOrder α] :
    ∀ (l : List α), l ≠ [] → argmaxIdx l < l.length
  | [], h => absurd rfl h
  | [_], _ => by simp [argmaxIdx]
  | a :: b :: t, _ => by
    simp only [argmaxIdx]
    split
    · simp
    · have h := argmaxIdx_lt_length (b :: t) (by simp)
      simp only [List.length_cons] at h ⊢
      omega

/-- On a list whose times are strictly increasing, dropping the first `i`
rows keeps exactly the rows whose time is at least the time at index `i`. -/
theorem drop_eq_filter_time_le (l : Dataset) :
    ∀ (i : ℕ), i < l.length → l.Pairwise (fun a b => a.1 < b.1) →
      l.drop i = l.filter (fun r => (l.getD i (0, 0)).1 ≤ r.1) := by
  induction l with
  | nil => intro i hi _; simp at hi
  | cons a tl ih =>
    intro i hi h
    rw [List.pairwise_cons] at h
    obtain ⟨ha, htl⟩ := h
    cases i with
    | zero =>
      simp only [List.drop_zero, List.getD_cons_zero]
      symm
      rw [List.filter_eq_self]
      intro b hb
      rcases List.mem_cons.mp hb with rfl | hb
      · simp
      · simpa using le_of_lt (ha b hb)
    | succ n =>
      have hn : n < tl.length := by simpa using hi
      simp only [List.drop_succ_cons, List.getD_cons_succ]
      rw [List.filter_cons_of_neg, ih n hn htl]
      have hmem : tl.getD n (0, 0) ∈ tl := by
        rw [List.getD_eq_getElem _ _ hn]
        exact List.getElem_mem hn
      simpa using not_le.mpr (ha _ hmem)

/-- On a list whose times are strictly increasing, dropping the first `i + 1`
rows keeps exactly the rows whose time strictly exceeds the time at
index `i`. -/
theorem drop_succ_eq_filter_time_lt (l : Dataset) :
    ∀ (i : ℕ), i < l.length → l.Pairwise (fun a b => a.1 < b.1) →
      l.drop (i + 1) = l.filter (fun r => (l.getD i (0, 0)).1 < r.1) := by
  induction l with
  | nil => intro i hi _; simp at hi
  | cons a tl ih =>
    intro i hi h
    rw [List.pairwise_cons] at h
    obtain ⟨ha, htl⟩ := h
    cases i with
    | zero =>
      simp only [List.drop_succ_cons, List.drop_zero, List.getD_cons_zero]
      rw [List.filter_cons_of_neg (by simp)]
      symm
      rw [List.filter_eq_self]
      intro b hb
      simpa using ha b hb
    | succ n =>
      have hn : n < tl.length := by simpa using hi
      simp only [List.drop_succ_cons, List.getD_cons_succ]
      rw [List.filter_cons_of_neg, ih n hn htl]
      have hmem : tl.getD n (0, 0) ∈ tl := by
        rw [List.getD_eq_getElem _ _ hn]
        exact List.getElem_mem hn
      simpa using not_lt.mpr (le_of_lt (ha _ hmem))

/-- Every element of a `zipWith` is the image of a pair of elements. -/
theorem zipWith_mem_exists {α β γ : Type*} (f : α → β → γ) :
    ∀ (l1 : List α) (l2 : List β) (x : γ),
      x ∈ List.zipWith f l1 l2 → ∃ a b, x = f a b
  | [], _, x, h => by simp at h
  | _ :: _, [], x, h => by simp at h
  | a :: t1, b :: t2, x, h => by
    rcases List.mem_cons.mp h with h | h
    · exact ⟨a, b, h⟩
    · exact zipWith_mem_exists f t1 t2 x h

/-- A left fold that appends blocks flattens the mapped blocks. -/
theorem foldl_append_eq_flatten {α β : Type*} (f : β → List α) :
    ∀ (l : List β) (acc : List α),
      l.foldl (fun a x => a ++ f x) acc = acc ++ (l.map f).flatten
  | [], acc => by simp
  | b :: t, acc => by
    simp only [List.foldl_cons, List.map_cons, List.flatten_cons]
    rw [foldl_append_eq_flatten f t (acc ++ f b), List.append_assoc]

/-- A list of two-field lines is recovered from its two field columns. -/
theorem two_col_decomp :
    ∀ (rest : List (List ℚ)), (∀ l ∈ rest, l.length = 2) →
      rest = List.zipWith (fun a b => [a, b])
        (rest.map (fun l => l.getD 0 0)) (rest.map (fun l => l.getD 1 0))
  | [], _ => rfl
  | l :: t, h => by
    have h2 := h l (List.mem_cons_self l t)
    obtain ⟨a, b, rfl⟩ : ∃ a b, l = [a, b] := by
      rcases l with _ | ⟨a, _ | ⟨b, _ | ⟨c, t1⟩⟩⟩
      · simp at h2
      · simp at h2
      · exact ⟨a, b, rfl⟩
      · simp only [List.length_cons] at h2; omega
    have ht := two_col_decomp t (fun x hx => h x (List.mem_cons_of_mem _ hx))
    simp only [List.map_cons, List.zipWith_cons_cons]
    rw [← ht]
    simp

/-! ### Claim theorems -/

/-- C2, counterexample: on the dataset `[(0,1), (1,5), (2,3)]` the intensity
peak is the row `(1,5)` (peak time 1), yet the boolean-mask preprocessing of
src/unnamed/part_000:582 discards that row, so it is not the case that every
row from the intensity peak onward is retained. -/
theorem mask_discards_peak_row_cex :
    peakTime [((0 : ℚ), (1 : ℚ)), (1, 5), (2, 3)] = 1 ∧
    ((1 : ℚ), (5 : ℚ)) ∈ retainFromPeak [((0 : ℚ), (1 : ℚ)), (1, 5), (2, 3)] ∧
    ((1 : ℚ), (5 : ℚ)) ∉ maskTrunc [((0 : ℚ), (1 : ℚ)), (1, 5), (2, 3)] := by
  decide

/-- C2, amended: for a dataset whose times are strictly increasing, the
argmax-slice preprocessing (src/unnamed/part_000:614-615) retains exactly the
rows whose time is at least the peak time — every row before the intensity
peak is removed and every row from the peak onward is kept — while the
boolean-mask preprocessing (src/unnamed/part_000:582) retains exactly the
rows whose time strictly exceeds the peak time, so it also discards the peak
row itself. -/
theorem trunc_amended (rows : Dataset)
    (hs : rows.Pairwise (fun a b => a.1 < b.1)) (hne : rows ≠ []) :
    argmaxTrunc rows = retainFromPeak rows ∧
    maskTrunc rows = rows.filter (fun r => peakTime rows < r.1) := by
  constructor
  · have hi : argmaxIdx (rows.map Prod.snd) < rows.length := by
      have h := argmaxIdx_lt_length (rows.map Prod.snd) (by simpa using hne)
      simpa using h
    exact drop_eq_filter_time_le rows _ hi hs
  · rfl

/-- Witness for `trunc_amended` at the dataset `[(0,1), (1,5), (2,3)]`. -/
theorem trunc_amended_witness :
    ([((0 : ℚ), (1 : ℚ)), (1, 5), (2, 3)] : Dataset).Pairwise
      (fun a b => a.1 < b.1) ∧
    ([((0 : ℚ), (1 : ℚ)), (1, 5), (2, 3)] : Dataset) ≠ [] ∧
    (argmaxTrunc [((0 : ℚ), (1 : ℚ)), (1, 5), (2, 3)] =
        retainFromPeak [((0 : ℚ), (1 : ℚ)), (1, 5), (2, 3)] ∧
      maskTrunc [((0 : ℚ), (1 : ℚ)), (1, 5), (2, 3)] =
        ([((0 : ℚ), (1 : ℚ)), (1, 5), (2, 3)] : Dataset).filter
          (fun r => peakTime [((0 : ℚ), (1 : ℚ)), (1, 5), (2, 3)] < r.1)) :=
  ⟨by decide, by decide, trunc_amended _ (by decide) (by decide)⟩

/-- C8, counterexample: on the dataset `[(0,1), (1,5), (2,3)]` the two
truncation implementations do not retain the same rows — the argmax slice
keeps the peak row `(1,5)`, the boolean mask does not. -/
theorem trunc_equiv_cex :
    argmaxTrunc [((0 : ℚ), (1 : ℚ)), (1, 5), (2, 3)] ≠
      maskTrunc [((0 : ℚ), (1 : ℚ)), (1, 5), (2, 3)] := by
  decide

/-- C8, amended: for a nonempty dataset whose times are strictly increasing,
the argmax-slice truncation retains exactly the peak row followed by the rows
the boolean-mask truncation retains. -/
theorem trunc_slice_eq_peak_cons_mask (rows : Dataset)
    (hs : rows.Pairwise (fun a b => a.1 < b.1)) (hne : rows ≠ []) :
    argmaxTrunc rows =
      rows.getD (argmaxIdx (rows.map Prod.snd)) (0, 0) :: maskTrunc rows := by
  have hi : argmaxIdx (rows.map Prod.snd) < rows.length := by
    have h := argmaxIdx_lt_length (rows.map Prod.snd) (by simpa using hne)
    simpa using h
  show rows.drop (argmaxIdx (rows.map Prod.snd)) = _
  rw [List.drop_eq_getElem_cons hi,
    drop_succ_eq_filter_time_lt rows _ hi hs]
  simp only [maskTrunc, peakTime, List.getD_eq_getElem _ _ hi]

/-- Witness for `trunc_slice_eq_peak_cons_mask` at the dataset
`[(0,2), (1,7), (3,4)]`. -/
theorem trunc_slice_eq_peak_cons_mask_witness :
    ([((0 : ℚ), (2 : ℚ)), (1, 7), (3, 4)] : Dataset).Pairwise
      (fun a b => a.1 < b.1) ∧
    ([((0 : ℚ), (2 : ℚ)), (1, 7), (3, 4)] : Dataset) ≠ [] ∧
    argmaxTrunc [((0 : ℚ), (2 : ℚ)), (1, 7), (3, 4)] =
      ([((0 : ℚ), (2 : ℚ)), (1, 7), (3, 4)] : Dataset).getD
          (argmaxIdx (([((0 : ℚ), (2 : ℚ)), (1, 7), (3, 4)] : Dataset).map
            Prod.snd)) (0, 0) ::
        maskTrunc [((0 : ℚ), (2 : ℚ)), (1, 7), (3, 4)] :=
  ⟨by decide, by decide, trunc_slice_eq_peak_cons_mask _ (by decide) (by decide)⟩

/-- C1: for a parameter vector of length 8 and argument lists of five arrays
each, the global residuals function returns the concatenation, in curve
order (the five curves are supplied in concentration order 0.0, 0.2, 0.5,
1.0, 1.5 mM by the `args` construction at src/unnamed/part_000:1094), of the
five per-curve weighted residual vectors
`(ally[i] - decay(allx[i], (p[0], p[1], p[2], p[3+i]))) / allyerr[i]`: the
first three parameters are shared and curve `i` gets exactly the one extra
parameter `p[3+i]`. -/
theorem residualsGlobal_concat (p0 p1 p2 m0 m1 m2 m3 m4 : ℝ)
    (x0 x1 x2 x3 x4 y0 y1 y2 y3 y4 e0 e1 e2 e3 e4 : List ℝ) :
    residualsGlobal [p0, p1, p2, m0, m1, m2, m3, m4]
        [x0, x1, x2, x3, x4] [y0, y1, y2, y3, y4] [e0, e1, e2, e3, e4] =
      curveResiduals (p0, p1, p2, m0) x0 y0 e0 ++
        curveResiduals (p0, p1, p2, m1) x1 y1 e1 ++
        curveResiduals (p0, p1, p2, m2) x2 y2 e2 ++
        curveResiduals (p0, p1, p2, m3) x3 y3 e3 ++
        curveResiduals (p0, p1, p2, m4) x4 y4 e4 := by
  simp [residualsGlobal, List.enum, List.enumFrom, List.append_assoc]

/-- C4, counterexample: at the data point `x = 0, y = 3, yerr = 2` and
parameters `(1, 1)`, the residual handed to the optimizer is
`(3 - exp_decay 0 (1,1)) / 2 = 1`, not the unweighted `y - f(x, β) = 2`:
the residual vector is weighted by the error, so the objective is not the
plain residual sum of squares. -/
theorem unweighted_rss_cex :
    residualsSingle (1, 1) [0] [3] [2] ≠ [(3 : ℝ) - exp_decay 0 (1, 1)] := by
  have h1 : exp_decay 0 (1, 1) = 1 := by simp [exp_decay]
  simp only [residualsSingle, List.zipWith_cons_cons, List.zipWith_nil_right,
    h1, List.cons.injEq, and_true, ne_eq]
  norm_num

/-- C4, amended: the residual vector handed to the optimizer is the weighted
`(y_i - f(x_i, β)) / yerr_i`, so the least-squares objective is the weighted
residual sum of squares `∑ ((y_i - f(x_i, β)) / yerr_i)²`. -/
theorem weighted_rss_objective (param : ℝ × ℝ) :
    ∀ (x y e : List ℝ), x.length = y.length → y.length = e.length →
      sumSq (residualsSingle param x y e) =
        ∑ i ∈ Finset.range x.length,
          ((y.getD i 0 - exp_decay (x.getD i 0) param) / e.getD i 0) ^ 2 := by
  intro x
  induction x with
  | nil =>
    intro y e h1 h2
    obtain rfl : y = [] := List.length_eq_zero.mp h1.symm
    simp [sumSq, residualsSingle]
  | cons a x ih =>
    intro y e h1 h2
    obtain ⟨b, y1, rfl⟩ : ∃ b y1, y = b :: y1 := by
      cases y with
      | nil => simp at h1
      | cons b y1 => exact ⟨b, y1, rfl⟩
    obtain ⟨c, e1, rfl⟩ : ∃ c e1, e = c :: e1 := by
      cases e with
      | nil => simp at h2
      | cons c e1 => exact ⟨c, e1, rfl⟩
    simp only [residualsSingle, List.zipWith_cons_cons, sumSq, List.map_cons,
      List.sum_cons, List.length_cons]
    rw [Finset.sum_range_succ']
    simp only [List.getD_cons_succ, List.getD_cons_zero]
    have h := ih y1 e1 (by simpa using h1) (by simpa using h2)
    simp only [residualsSingle, sumSq] at h
    rw [h]
    ring

/-- Witness for `weighted_rss_objective` at `x = [0], y = [3], e = [2]`,
parameters `(1, 1)`. -/
theorem weighted_rss_objective_witness :
    ([(0 : ℝ)].length = [(3 : ℝ)].length) ∧
    ([(3 : ℝ)].length = [(2 : ℝ)].length) ∧
    sumSq (residualsSingle (1, 1) [0] [3] [2]) =
      ∑ i ∈ Finset.range [(0 : ℝ)].length,
        (([(3 : ℝ)].getD i 0 - exp_decay ([(0 : ℝ)].getD i 0) (1, 1)) /
          [(2 : ℝ)].getD i 0) ^ 2 :=
  ⟨rfl, rfl, weighted_rss_objective (1, 1) [0] [3] [2] rfl rfl⟩

/-- C5: reading a data file skips exactly the 9 header lines — the times and
counts returned are exactly field 0 and field 1 of the lines after the
header — and when each retained line has exactly two numeric fields, the
retained lines are exactly the `[time, count]` pairs so obtained. -/
theorem loadtxt_skip9_two_cols (header rest : List (List ℚ))
    (hh : header.length = 9) (hr : ∀ l ∈ rest, l.length = 2) :
    readTF (header ++ rest) =
      (rest.map (fun l => l.getD 0 0), rest.map (fun l => l.getD 1 0)) ∧
    rest = List.zipWith (fun a b => [a, b])
      (rest.map (fun l => l.getD 0 0)) (rest.map (fun l => l.getD 1 0)) := by
  constructor
  · have hd : (header ++ rest).drop 9 = rest := by
      rw [← hh, List.drop_left]
    simp [readTF, loadtxtRows, hd]
  · exact two_col_decomp rest hr

/-- Witness for `loadtxt_skip9_two_cols` on a 9-line header followed by one
data line `[1, 2]`. -/
theorem loadtxt_skip9_two_cols_witness :
    ([[], [], [], [], [], [], [], [], []] : List (List ℚ)).length = 9 ∧
    (∀ l ∈ ([[1, 2]] : List (List ℚ)), l.length = 2) ∧
    (readTF ([[], [], [], [], [], [], [], [], []] ++ [[(1 : ℚ), 2]]) =
        (([[(1 : ℚ), 2]] : List (List ℚ)).map (fun l => l.getD 0 0),
         ([[(1 : ℚ), 2]] : List (List ℚ)).map (fun l => l.getD 1 0)) ∧
      ([[(1 : ℚ), 2]] : List (List ℚ)) = List.zipWith (fun a b => [a, b])
        (([[(1 : ℚ), 2]] : List (List ℚ)).map (fun l => l.getD 0 0))
        (([[(1 : ℚ), 2]] : List (List ℚ)).map (fun l => l.getD 1 0))) :=
  ⟨rfl, by decide, loadtxt_skip9_two_cols _ _ rfl (by decide)⟩

/-- C6: the persisted outputs of the pipeline are exactly one pickled dump
and one CSV dump of the same combined dataframe, written after the five
per-concentration datasets have been truncated, shifted and appended into a
single frame indexed by quencher concentration (the flattened blocks in
`concs` order); no other cell of the repository writes to disk. -/
theorem pipeline_persists_two_dumps (inputs : List (List ℚ × List ℚ)) :
    pipelineEffects inputs =
      [Effect.pickle "data/fluorescence.p"
        (((concs.zip inputs).map
          (fun ci => (processOne ci.2.1 ci.2.2).map (fun r => (ci.1, r)))).flatten),
       Effect.csv "data/fluorescence.csv"
        (((concs.zip inputs).map
          (fun ci => (processOne ci.2.1 ci.2.2).map (fun r => (ci.1, r)))).flatten)] := by
  have h : buildData inputs =
      ((concs.zip inputs).map
        (fun ci => (processOne ci.2.1 ci.2.2).map (fun r => (ci.1, r)))).flatten := by
    rw [buildData, foldl_append_eq_flatten
      (fun ci : ℚ × (List ℚ × List ℚ) =>
        (processOne ci.2.1 ci.2.2).map (fun r => (ci.1, r)))]
    simp
  simp [pipelineEffects, h]

/-- C9: in the combined dataframe every row's `errF` column equals the square
root of its photon-count column, and (for datasets with matching nonempty
time and count arrays) the first `t` value of each concentration block is
zero — each curve's time axis is shifted so the intensity maximum sits at
`t = 0`. -/
theorem combined_frame_invariants (inputs : List (List ℚ × List ℚ))
    (h : ∀ q ∈ inputs, q.2 ≠ [] ∧ q.1.length = q.2.length) :
    (∀ row ∈ buildData inputs, row.2.2.2 = Real.sqrt ((row.2.2.1 : ℚ) : ℝ)) ∧
    (∀ q ∈ inputs, ((processOne q.1 q.2).headD (0, 0, 0)).1 = 0) := by
  constructor
  · intro row hrow
    rw [buildData, foldl_append_eq_flatten
      (fun ci : ℚ × (List ℚ × List ℚ) =>
        (processOne ci.2.1 ci.2.2).map (fun r => (ci.1, r)))] at hrow
    simp only [List.nil_append, List.mem_flatten, List.mem_map] at hrow
    obtain ⟨l, ⟨ci, _, rfl⟩, hl⟩ := hrow
    obtain ⟨r, hr, rfl⟩ := List.mem_map.mp hl
    obtain ⟨a, b, rfl⟩ := zipWith_mem_exists _ _ _ r hr
    rfl
  · intro q hq
    obtain ⟨hne, hlen⟩ := h q hq
    have hi : argmaxIdx q.2 < q.2.length := argmaxIdx_lt_length q.2 hne
    have ht : q.1.drop (argmaxIdx q.2) ≠ [] := by
      rw [ne_eq, List.drop_eq_nil_iff]
      omega
    have hF : q.2.drop (argmaxIdx q.2) ≠ [] := by
      rw [ne_eq, List.drop_eq_nil_iff]
      omega
    obtain ⟨a, t1, h1⟩ := List.exists_cons_of_ne_nil ht
    obtain ⟨b, F1, h2⟩ := List.exists_cons_of_ne_nil hF
    simp [processOne, h1, h2]

/-- C7: optimizer failure is reported solely through the success flag of the
returned result object — the post-fit report prints the flag itself and the
rest of the report (best-fit parameters and error analysis) is unchanged by
the flag's value: no repository code retries, recovers, or raises on a
false flag (the notebooks contain no `try`/`except` and no `raise`). -/
theorem success_flag_only_reported (res : OptResult) (s : List ℝ) (VT : NArr)
    (eps : ℝ) (b : Bool) :
    fitReport { res with success := b } s VT eps =
      (b, res.x, error_analysis res s VT eps) := rfl

/-- C10: `drop` called with index and/or columns arguments and without
`inplace=True` returns a new dataframe with those rows and columns removed
while the dataframe in the notebook state is left unchanged; the state is
replaced by the reduced frame exactly when `inplace=True` is passed — and the
reduced frame keeps precisely the rows whose label was not dropped, each
without the dropped columns. -/
theorem drop_inplace_semantics (df : Frame) (idx : List String)
    (cols : List ℤ) :
    (runDrop df idx cols false).1 = some (dropFrame df idx cols) ∧
    (runDrop df idx cols false).2 = df ∧
    (runDrop df idx cols true).2 = dropFrame df idx cols ∧
    (∀ r ∈ dropFrame df idx cols, r.1 ∉ idx ∧ ∀ c ∈ r.2, c.1 ∉ cols) ∧
    (∀ r ∈ df, r.1 ∉ idx →
      (r.1, r.2.filter (fun c => c.1 ∉ cols)) ∈ dropFrame df idx cols) := by
  refine ⟨rfl, rfl, rfl, ?_, ?_⟩
  · intro r hr
    simp only [dropFrame, List.mem_map] at hr
    obtain ⟨r0, hr0, rfl⟩ := hr
    rw [List.mem_filter] at hr0
    refine ⟨by simpa using hr0.2, ?_⟩
    intro c hc
    rw [List.mem_filter] at hc
    simpa using hc.2
  · intro r hr hnotin
    simp only [dropFrame, List.mem_map]
    exact ⟨r, List.mem_filter.mpr ⟨hr, by simpa⟩, rfl⟩

/-- C3: `error_analysis(res)` returns the pair `(sqrt of the diagonal of
pcov, s_sq)` with `s_sq = 2*res.cost / (res.fun.size - res.x.size)`, where
`pcov` is the Moore-Penrose inverse of `jacᵀ jac` computed from the SVD of
`res.jac` restricted to the singular values exceeding
`eps * max(jac.shape) * s[0]`, scaled by `s_sq` (`hrows` is the SVD shape
guarantee that `VT` has one row per singular value). -/
theorem error_analysis_spec (res : OptResult) (s : List ℝ) (VT : NArr)
    (eps : ℝ) (hrows : VT.rows = s.length) :
    error_analysis res s VT eps =
      ((List.range VT.cols).map (fun i =>
         Real.sqrt (pcovFormula (keptSingulars res s eps) VT
           (2 * res.cost / ((res.fn.length : ℝ) - (res.x.length : ℝ))) i i)),
       2 * res.cost / ((res.fn.length : ℝ) - (res.x.length : ℝ))) := by
  have hlen : (keptSingulars res s eps).length ≤ VT.rows := by
    rw [hrows]
    exact List.length_filter_le _ s
  simp only [error_analysis, keptSingulars, pcovFormula, matScale, matDot,
    divBroadcast, transposeA, takeRows] at hlen ⊢
  rw [min_self, min_eq_left hlen]
  simp only [Prod.mk.injEq]
  refine ⟨?_, trivial⟩
  refine List.map_congr_left fun i _ => ?_
  congr 1
  rw [mul_comm]
  congr 1
  refine Finset.sum_congr rfl ?_
  intro t ht
  have htl : t < (keptSingulars res s eps).length := Finset.mem_range.mp ht
  simp only [keptSingulars] at htl
  rw [List.getD_eq_getElem _ _ (by simpa using htl),
    List.getD_eq_getElem _ _ htl, List.getElem_map]
  ring

/-- Witness for `error_analysis_spec` at a one-parameter result with a
single singular value. -/
theorem error_analysis_spec_witness :
    (⟨1, 1, fun _ _ => 1⟩ : NArr).rows = [(1 : ℝ)].length ∧
    error_analysis ⟨[0], [0, 0], 1, ⟨2, 1, fun _ _ => 1⟩, true⟩ [1]
        ⟨1, 1, fun _ _ => 1⟩ 0 =
      ((List.range (⟨1, 1, fun _ _ => 1⟩ : NArr).cols).map (fun i =>
         Real.sqrt (pcovFormula
           (keptSingulars ⟨[0], [0, 0], 1, ⟨2, 1, fun _ _ => 1⟩, true⟩ [1] 0)
           ⟨1, 1, fun _ _ => 1⟩
           (2 * (⟨[0], [0, 0], 1, ⟨2, 1, fun _ _ => 1⟩, true⟩ : OptResult).cost /
             (((⟨[0], [0, 0], 1, ⟨2, 1, fun _ _ => 1⟩, true⟩ : OptResult).fn.length : ℝ) -
              ((⟨[0], [0, 0], 1, ⟨2, 1, fun _ _ => 1⟩, true⟩ : OptResult).x.length : ℝ)))
           i i)),
       2 * (⟨[0], [0, 0], 1, ⟨2, 1, fun _ _ => 1⟩, true⟩ : OptResult).cost /
         (((⟨[0], [0, 0], 1, ⟨2, 1, fun _ _ => 1⟩, true⟩ : OptResult).fn.length : ℝ) -
          ((⟨[0], [0, 0], 1, ⟨2, 1, fun _ _ => 1⟩, true⟩ : OptResult).x.length : ℝ))) :=
  ⟨rfl, error_analysis_spec ⟨[0], [0, 0], 1, ⟨2, 1, fun _ _ => 1⟩, true⟩ [1]
    ⟨1, 1, fun _ _ => 1⟩ 0 rfl⟩

/-- Witness for `combined_frame_invariants` at the single input
`t = [0, 1], F = [2, 1]`. -/
theorem combined_frame_invariants_witness :
    (∀ q ∈ ([([0, 1], [2, 1])] : List (List ℚ × List ℚ)),
      q.2 ≠ [] ∧ q.1.length = q.2.length) ∧
    ((∀ row ∈ buildData [([0, 1], [2, 1])],
        row.2.2.2 = Real.sqrt ((row.2.2.1 : ℚ) : ℝ)) ∧
     (∀ q ∈ ([([0, 1], [2, 1])] : List (List ℚ × List ℚ)),
        ((processOne q.1 q.2).headD (0, 0, 0)).1 = 0)) :=
  ⟨by decide, combined_frame_invariants [([0, 1], [2, 1])] (by decide)⟩

/-- Witness for `drop_inplace_semantics` at a two-row frame, dropping the
row `Germany` and the column `2014`. -/
theorem drop_inplace_semantics_witness :
    (runDrop [("Germany", [((2014 : ℤ), some (57/5 : ℚ))]),
        ("Sweden", [((2014 : ℤ), some (29/5 : ℚ))])] ["Germany"] [2014] false).1 =
      some (dropFrame [("Germany", [((2014 : ℤ), some (57/5 : ℚ))]),
        ("Sweden", [((2014 : ℤ), some (29/5 : ℚ))])] ["Germany"] [2014]) ∧
    (runDrop [("Germany", [((2014 : ℤ), some (57/5 : ℚ))]),
        ("Sweden", [((2014 : ℤ), some (29/5 : ℚ))])] ["Germany"] [2014] false).2 =
      [("Germany", [((2014 : ℤ), some (57/5 : ℚ))]),
        ("Sweden", [((2014 : ℤ), some (29/5 : ℚ))])] ∧
    (runDrop [("Germany", [((2014 : ℤ), some (57/5 : ℚ))]),
        ("Sweden", [((2014 : ℤ), some (29/5 : ℚ))])] ["Germany"] [2014] true).2 =
      dropFrame [("Germany", [((2014 : ℤ), some (57/5 : ℚ))]),
        ("Sweden", [((2014 : ℤ), some (29/5 : ℚ))])] ["Germany"] [2014] ∧
    (∀ r ∈ dropFrame [("Germany", [((2014 : ℤ), some (57/5 : ℚ))]),
        ("Sweden", [((2014 : ℤ), some (29/5 : ℚ))])] ["Germany"] [2014],
      r.1 ∉ ["Germany"] ∧ ∀ c ∈ r.2, c.1 ∉ ([2014] : List ℤ)) ∧
    (∀ r ∈ [("Germany", [((2014 : ℤ), some (57/5 : ℚ))]),
        ("Sweden", [((2014 : ℤ), some (29/5 : ℚ))])], r.1 ∉ ["Germany"] →
      (r.1, r.2.filter (fun c => c.1 ∉ ([2014] : List ℤ))) ∈
        dropFrame [("Germany", [((2014 : ℤ), some (57/5 : ℚ))]),
          ("Sweden", [((2014 : ℤ), some (29/5 : ℚ))])] ["Germany"] [2014]) :=
  drop_inplace_semantics
    [("Germany", [((2014 : ℤ), some (57/5 : ℚ))]),
     ("Sweden", [((2014 : ℤ), some (29/5 : ℚ))])] ["Germany"] [2014]

end JupyterCourse
